import Mathlib

/-!
Verification development for the soulstruct text/params engine.

Shallow embedding of:
  - `soulstruct/text/base/msg_directory.py` (class `MSGDirectory`): loading FMG
    entries from the two MSGBND archives, the base/Patch overlay merge, item-text
    deletion, subscript lookup, and `save` (packing back into BND copies).
  - `soulstruct/params/dark_souls_params.py` (`DarkSoulsGameParameters`,
    `DrawParamBlock`): paramdef dialect selection from DCX compression and
    DrawParam slot-name validation.

Python `dict` values are modelled as association lists with Python dict
semantics (lookup by key, in-place overwrite keeping position, append of new
keys in insertion order).  Python `str` methods that the source uses
(`endswith`, `startswith`, `split`, `lower`, slicing from the right) are
modelled over `String.data` with the same character-level semantics.

The FMG codec itself (`soulstruct/text/base/fmg.py`) is not part of the given
sources; following the specification, an FMG is identified with its
`entries` mapping (index -> string), so FMG parse and pack are the identity on
that mapping.  BND internals are likewise reduced to what `MSGDirectory`
observes: a DCX flag and a list of entries with numeric id, name and payload.
-/

/-- Python `str.endswith`, over the character list of the string. -/
def strEndsWith (s suffix : String) : Bool :=
  s.data.reverse.take suffix.data.length == suffix.data.reverse

/-- Python negative-slice `s[:-n]`: drop the last `n` characters. -/
def strDropRight (s : String) (n : Nat) : String :=
  ⟨s.data.take (s.data.length - n)⟩

/-- Python `str.startswith`, over the character list of the string. -/
def strStartsWith (s p : String) : Bool :=
  s.data.take p.data.length == p.data

/-- Helper for Python `str.split` with a one-character separator. -/
def splitCharAux (c : Char) : List Char → List (List Char)
  | [] => [[]]
  | ch :: rest =>
    match splitCharAux c rest with
    | cur :: acc => if ch = c then [] :: cur :: acc else (ch :: cur) :: acc
    | [] => [[ch]]

/-- Python `str.split` with a one-character separator. -/
def strSplitChar (s : String) (c : Char) : List String :=
  (splitCharAux c s.data).map (fun l => ⟨l⟩)

/-- Python `str.lower` (ASCII is all the source needs). -/
def strToLower (s : String) : String :=
  ⟨s.data.map Char.toLower⟩

/-- Python `dict` lookup `d.get(k)` / `d[k]` on an association list. -/
def dget {α β : Type} [DecidableEq α] : List (α × β) → α → Option β
  | [], _ => none
  | (k, v) :: rest, x => if x = k then some v else dget rest x

/-- Python `dict` item assignment `d[k] = v`: overwrite in place if the key is
present (keeping its position), else append the new key. -/
def dinsert {α β : Type} [DecidableEq α] : List (α × β) → α → β → List (α × β)
  | [], k, v => [(k, v)]
  | (k0, v0) :: rest, k, v =>
    if k = k0 then (k, v) :: rest else (k0, v0) :: dinsert rest k v

/-- Python `dict.update(e)`: assign each item of `e` into `d` in order. -/
def dupdate {α β : Type} [DecidableEq α] (d e : List (α × β)) : List (α × β) :=
  e.foldl (fun acc kv => dinsert acc kv.1 kv.2) d

/-- Python `dict.pop(k)` (the removal part; the popped value is read with
`dget` where needed). -/
def dpop {α β : Type} [DecidableEq α] : List (α × β) → α → List (α × β)
  | [], _ => []
  | (k0, v0) :: rest, k => if k = k0 then rest else (k0, v0) :: dpop rest k

/-- One entry of an MSGBND archive as `MSGDirectory` observes it: the numeric
directory id, the original file name, and the parsed FMG payload (its
index-to-string `entries` mapping; the FMG codec is handled by `FMG_CLASS`,
whose source is external, and per the specification an FMG is exactly such a
mapping). -/
structure MsgBNDEntry where
  id : Nat
  name : String
  data : List (Nat × String)
deriving DecidableEq

/-- An MSGBND archive as `MSGDirectory` observes it: the DCX-compression flag
(`dcx_magic`) and the ordered entry list. -/
structure MsgBND where
  dcx_magic : Bool
  entries : List MsgBNDEntry
deriving DecidableEq

/-- The mutable state of an `MSGDirectory` instance (fields set in
`MSGDirectory.__init__`). -/
structure MSGState where
  categories : List (String × List (Nat × String))
  is_patch : List (String × Nat)
  is_menu : List (String × Bool)
  original_names : List (String × String)
  item_msgbnd : MsgBND
  menu_msgbnd : MsgBND
deriving DecidableEq

/-- The typed failures the modelled code can raise.  Each constructor
corresponds to one raise site (or uncaught `KeyError`) in the source. -/
inductive MSGError where
  | inconsistentDialect
  | unexpectedCategory (id : Nat)
  | keyError (key : String)
  | attributeError (category : String)
  | valueError (msg : String)
  | missingBndIndex (name : String)
  | missingBndEntry (id : Nat)
  | writeFailed
deriving DecidableEq

/-- `_CAN_MERGE_PATCH` from `msg_directory.py` (a Python `set`; listed here in
the source listing order — only membership is ever used). -/
def CAN_MERGE_PATCH : List String :=
  ["WeaponNamesPatch", "WeaponSummariesPatch", "WeaponDescriptionsPatch",
   "ArmorNamesPatch", "ArmorSummariesPatch", "ArmorDescriptionsPatch",
   "RingNamesPatch", "RingSummariesPatch", "RingDescriptionsPatch",
   "GoodNamesPatch", "GoodSummariesPatch", "GoodDescriptionsPatch",
   "SpellNamesPatch", "SpellDescriptionsPatch",
   "NPCNamesPatch", "PlaceNamesPatch"]

/-- `_CANNOT_MERGE_PATCH` from `msg_directory.py`. -/
def CANNOT_MERGE_PATCH : List String :=
  ["EventText", "MenuDialogs", "SoapstoneMessages", "MenuHelpSnippets",
   "KeyGuide", "MenuText_Other", "MenuText_Common"]

/-- The `for index in fmg.entries: self._is_patch.add((new_name, index))` loop:
record every folded `(category, index)` pair in the provenance set. -/
def addPatchKeys (base : String) (s : List (String × Nat)) :
    List (Nat × String) → List (String × Nat)
  | [] => s
  | (i, _) :: rest => addPatchKeys base (s.insert (base, i)) rest

/-- The category mapping currently held for `c` (empty when absent), matching
`self.categories.setdefault(c, {})`. -/
def catEntries (st : MSGState) (c : String) : List (Nat × String) :=
  (dget st.categories c).getD []

/-- One iteration of the `for entry in msgbnd` loop of
`MSGDirectory.load_fmg_entries_from_bnd`: resolve the entry id through the
fixed id-to-name table (`_MSGBND_INDEX_NAMES`), record original name and
item/menu origin, then either fold a "Patch" category into its base category
(recording provenance and stripping the suffix) or update the category
directly. -/
def load_one_fmg_entry (tbl : List (Nat × String)) (is_menu : Bool)
    (st : MSGState) (e : MsgBNDEntry) : Except MSGError MSGState :=
  match dget tbl e.id with
  | none => .error (.unexpectedCategory e.id)
  | some new_name =>
    let onames := dinsert st.original_names new_name e.name
    let imenu := dinsert st.is_menu new_name is_menu
    let st1 : MSGState := { st with original_names := onames, is_menu := imenu }
    if strEndsWith new_name "Patch" then
      let base := strDropRight new_name 5
      let ipatch := addPatchKeys base st1.is_patch e.data
      let st2 : MSGState := { st1 with is_patch := ipatch }
      let cats := dinsert st2.categories base (dupdate (catEntries st2 base) e.data)
      .ok { st2 with categories := cats }
    else
      let cats := dinsert st1.categories new_name (dupdate (catEntries st1 new_name) e.data)
      .ok { st1 with categories := cats }

/-- `MSGDirectory.load_fmg_entries_from_bnd`: process the archive entries in
order; the first unexpected id aborts the load. -/
def load_fmg_entries_from_bnd (tbl : List (Nat × String)) (is_menu : Bool) :
    MSGState → List MsgBNDEntry → Except MSGError MSGState
  | st, [] => .ok st
  | st, e :: rest =>
    match load_one_fmg_entry tbl is_menu st e with
    | .error er => .error er
    | .ok st1 => load_fmg_entries_from_bnd tbl is_menu st1 rest

/-- The state `MSGDirectory.__init__` starts from once both archives are
loaded from disk. -/
def initState (item menu : MsgBND) : MSGState :=
  { categories := []
    is_patch := []
    is_menu := []
    original_names := []
    item_msgbnd := item
    menu_msgbnd := menu }

/-- `MSGDirectory.__init__` after the two BND files are read: the DCX
consistency check (the two `raise ValueError` sites for mixed DCX), then
`load_fmg_entries_from_bnd` on the item archive followed by the menu
archive.  A raised error means no directory object is ever exposed. -/
def msgDirInit (tbl : List (Nat × String)) (item menu : MsgBND) :
    Except MSGError MSGState :=
  if item.dcx_magic && !menu.dcx_magic then .error .inconsistentDialect
  else if !item.dcx_magic && menu.dcx_magic then .error .inconsistentDialect
  else
    match load_fmg_entries_from_bnd tbl false (initState item menu) item.entries with
    | .error er => .error er
    | .ok st1 => load_fmg_entries_from_bnd tbl true st1 menu.entries

/-- `MSGDirectory.__getitem__`: a `KeyError` on the category lookup is caught
and re-raised as `AttributeError`. -/
def msg_getitem (st : MSGState) (text_category : String) :
    Except MSGError (List (Nat × String)) :=
  match
    (match dget st.categories text_category with
     | some d => .ok d
     | none => .error (.keyError text_category) : Except MSGError (List (Nat × String))) with
  | .ok d => .ok d
  | .error (.keyError _) => .error (.attributeError text_category)
  | .error er => .error er

/-- `MSGDirectory.resolve_item_type`. -/
def resolve_item_type (item_type : String) : Except MSGError String :=
  let l := strToLower item_type
  if l = "good" ∨ l = "consumable" then .ok "Good"
  else if l = "ring" ∨ l = "accessory" then .ok "Ring"
  else if l = "weapon" ∨ l = "shield" then .ok "Weapon"
  else if l = "armour" ∨ l = "armor" ∨ l = "protector" then .ok "Armor"
  else if l = "equipment" then .error (.valueError "Equipment is ambiguous.")
  else if l = "item" then .error (.valueError "Item is ambiguous.")
  else .error (.valueError "Unrecognized item type.")

/-- `MSGDirectory.delete_item_text`: resolve the item type, require the index
to exist in the `{Item}Names` category, then assign the empty string at that
index in `{Item}Names`, `{Item}Summaries` and `{Item}Descriptions` in turn.
Mutations are threaded, so a failure part-way (a missing sibling category)
leaves the mutations made so far in place, exactly as in the source. -/
def delete_item_text (st : MSGState) (index : Nat) (item_fmg : String) :
    MSGState × Option MSGError :=
  match resolve_item_type item_fmg with
  | .error er => (st, some er)
  | .ok item =>
    match dget st.categories (item ++ "Names") with
    | none => (st, some (.keyError (item ++ "Names")))
    | some names =>
      if (dget names index).isNone then
        (st, some (.valueError "There is no item with that index to delete."))
      else
        let cats1 := dinsert st.categories (item ++ "Names") (dinsert names index "")
        let st1 : MSGState := { st with categories := cats1 }
        match dget st1.categories (item ++ "Summaries") with
        | none => (st1, some (.keyError (item ++ "Summaries")))
        | some summaries =>
          let cats2 := dinsert st1.categories (item ++ "Summaries") (dinsert summaries index "")
          let st2 : MSGState := { st1 with categories := cats2 }
          match dget st2.categories (item ++ "Descriptions") with
          | none => (st2, some (.keyError (item ++ "Descriptions")))
          | some descriptions =>
            let cats3 := dinsert st2.categories (item ++ "Descriptions") (dinsert descriptions index "")
            ({ st2 with categories := cats3 }, none)

/-- Reverse lookup `self._MSGBND_INDEX_NAMES[fmg_name]` (the `BiDict` maps BND
entry ids to FMG names and back). -/
def nameToId (tbl : List (Nat × String)) (n : String) : Option Nat :=
  (tbl.find? (fun kv => kv.2 == n)).map (fun kv => kv.1)

/-- Payload of the BND entry with the given id, if present. -/
def entryData (bnd : MsgBND) (i : Nat) : Option (List (Nat × String)) :=
  (bnd.entries.find? (fun e => e.id == i)).map (fun e => e.data)

/-- `BaseBND.remove_entry` (BND container source is external): delete the
directory entry with the given id. -/
def remove_entry (bnd : MsgBND) (i : Nat) : MsgBND :=
  { bnd with entries := bnd.entries.filter (fun e => e.id != i) }

/-- `MSGDirectory.update_msgbnd_entry` with the default
`use_original_names=True` (no path rewrite): pack the FMG (identity on the
entries mapping, see the header note) and store it as the payload of the BND
entry whose id the name table gives for `fmg_name`.  A failing name lookup or
a missing BND entry aborts the save. -/
def update_msgbnd_entry (tbl : List (Nat × String)) (msgbnd : MsgBND)
    (fmg_name : String) (fmg_entries : List (Nat × String)) :
    Except MSGError MsgBND :=
  match nameToId tbl fmg_name with
  | none => .error (.missingBndIndex fmg_name)
  | some bnd_entry_id =>
    if msgbnd.entries.any (fun e => e.id == bnd_entry_id) then
      .ok { msgbnd with
            entries := msgbnd.entries.map (fun e =>
              if e.id == bnd_entry_id then { e with data := fmg_entries } else e) }
    else .error (.missingBndEntry bnd_entry_id)

/-- The `if not separate_patch` loop of `MSGDirectory.save`: for each name in
`_CAN_MERGE_PATCH` that was loaded (present in `_is_menu`), remove its entry
from the corresponding new BND copy if the entry exists.  (The source iterates
a Python `set`; the removals are independent, so list order stands in for the
set order.) -/
def removeMergedPatchEntries (tbl : List (Nat × String)) (st : MSGState) :
    List String → MsgBND × MsgBND → Except MSGError (MsgBND × MsgBND)
  | [], acc => .ok acc
  | pname :: rest, (ni, nm) =>
    match dget st.is_menu pname with
    | none => removeMergedPatchEntries tbl st rest (ni, nm)
    | some m =>
      match nameToId tbl pname with
      | none => .error (.missingBndIndex pname)
      | some idx =>
        if m then removeMergedPatchEntries tbl st rest (ni, remove_entry nm idx)
        else removeMergedPatchEntries tbl st rest (remove_entry ni idx, nm)

/-- The `for index in fmg_entries.keys()` split loop of `MSGDirectory.save`:
walk the merged entries; every index recorded in `_is_patch` is popped from
the main copy, and added to the patch dictionary when its text is non-empty. -/
def split_patch_entries (is_patch : List (String × Nat)) (fmg_name : String) :
    List (Nat × String) → List (Nat × String) × List (Nat × String) →
    List (Nat × String) × List (Nat × String)
  | [], acc => acc
  | (i, v) :: rest, (m, p) =>
    if is_patch.contains (fmg_name, i) then
      split_patch_entries is_patch fmg_name rest
        (dpop m i, if v ≠ "" then dinsert p i v else p)
    else split_patch_entries is_patch fmg_name rest (m, p)

/-- First half of one iteration of the category loop in `MSGDirectory.save`:
when the split produced a non-empty patch dictionary, write it into the
`...Patch` BND entry of whichever archive that Patch FMG came from. -/
def save_patch_step (tbl : List (Nat × String)) (st : MSGState) (ni nm : MsgBND)
    (fmg_name : String) (fmg_entries_patch : List (Nat × String)) :
    Except MSGError (MsgBND × MsgBND) :=
  if fmg_entries_patch.isEmpty then .ok (ni, nm)
  else
    match dget st.is_menu (fmg_name ++ "Patch") with
    | none => .error (.keyError (fmg_name ++ "Patch"))
    | some m =>
      if m then
        match update_msgbnd_entry tbl nm (fmg_name ++ "Patch") fmg_entries_patch with
        | .error er => .error er
        | .ok nm1 => .ok (ni, nm1)
      else
        match update_msgbnd_entry tbl ni (fmg_name ++ "Patch") fmg_entries_patch with
        | .error er => .error er
        | .ok ni1 => .ok (ni1, nm)

/-- Second half of one iteration of the category loop in `MSGDirectory.save`:
pack the given dictionary into the base BND entry of the category. -/
def save_main_step (tbl : List (Nat × String)) (st : MSGState) (ni nm : MsgBND)
    (fmg_name : String) (fmg_entries : List (Nat × String)) :
    Except MSGError (MsgBND × MsgBND) :=
  match dget st.is_menu fmg_name with
  | none => .error (.keyError fmg_name)
  | some m =>
    if m then
      match update_msgbnd_entry tbl nm fmg_name fmg_entries with
      | .error er => .error er
      | .ok nm2 => .ok (ni, nm2)
    else
      match update_msgbnd_entry tbl ni fmg_name fmg_entries with
      | .error er => .error er
      | .ok ni2 => .ok (ni2, nm)

/-- One iteration of the category loop in `MSGDirectory.save`.  The source
computes `fmg_entries_main` (the first component of the split, dead) and
`fmg_entries_patch`; it writes the patch dictionary into the `...Patch` BND
entry when non-empty, and then packs `fmg_entries` — the full merged
dictionary, not `fmg_entries_main` — into the base BND entry. -/
def save_one_category (tbl : List (Nat × String)) (st : MSGState)
    (separate_patch : Bool) (ni nm : MsgBND) (fmg_name : String)
    (fmg_entries : List (Nat × String)) : Except MSGError (MsgBND × MsgBND) :=
  match save_patch_step tbl st ni nm fmg_name
      (if separate_patch || CANNOT_MERGE_PATCH.contains fmg_name then
        (split_patch_entries st.is_patch fmg_name fmg_entries (fmg_entries, [])).2
      else []) with
  | .error er => .error er
  | .ok (ni1, nm1) => save_main_step tbl st ni1 nm1 fmg_name fmg_entries

/-- The `for fmg_name, fmg_entries in self.categories.items()` loop of
`MSGDirectory.save`, threading the two new BND copies. -/
def save_categories (tbl : List (Nat × String)) (st : MSGState)
    (separate_patch : Bool) :
    List (String × List (Nat × String)) → MsgBND × MsgBND →
    Except MSGError (MsgBND × MsgBND)
  | [], acc => .ok acc
  | (n, es) :: rest, (ni, nm) =>
    match save_one_category tbl st separate_patch ni nm n es with
    | .error er => .error er
    | .ok acc1 => save_categories tbl st separate_patch rest acc1

/-- The pure packing phase of `MSGDirectory.save`: deep copies of the two
archives (values here), optional removal of mergeable Patch entries, then the
category loop. -/
def save_pack (tbl : List (Nat × String)) (st : MSGState)
    (separate_patch : Bool) : Except MSGError (MsgBND × MsgBND) :=
  match
    (if separate_patch then .ok (st.item_msgbnd, st.menu_msgbnd)
     else removeMergedPatchEntries tbl st CAN_MERGE_PATCH
            (st.item_msgbnd, st.menu_msgbnd) : Except MSGError (MsgBND × MsgBND)) with
  | .error er => .error er
  | .ok acc => save_categories tbl st separate_patch st.categories acc

/-- Result of `MSGDirectory.save`: the state of `self` when the method
returns or raises, the files written (in write order), and the error if one
was raised. -/
structure SaveResult where
  new_self : MSGState
  written : List (String × MsgBND)
  err : Option MSGError
deriving DecidableEq

/-- `MSGDirectory.save`: pack into in-memory copies, write the item archive
then the menu archive (each write may fail, modelled by the two flags), and
only after both writes succeed replace `self.item_msgbnd` and
`self.menu_msgbnd` with the new copies. -/
def save (tbl : List (Nat × String)) (st : MSGState) (separate_patch : Bool)
    (write_item_ok write_menu_ok : Bool) : SaveResult :=
  match save_pack tbl st separate_patch with
  | .error er => { new_self := st, written := [], err := some er }
  | .ok (ni, nm) =>
    if !write_item_ok then
      { new_self := st, written := [], err := some .writeFailed }
    else if !write_menu_ok then
      { new_self := st, written := [("item", ni)], err := some .writeFailed }
    else
      let st1 : MSGState := { st with item_msgbnd := ni, menu_msgbnd := nm }
      { new_self := st1, written := [("item", ni), ("menu", nm)], err := none }

/-- One entry of a param BND archive as `dark_souls_params.py` observes it:
the directory path, the base file name, and the raw payload bytes. -/
structure ParamBNDEntry where
  path : String
  basename : String
  data : List Nat
deriving DecidableEq

/-- A param BND archive: the DCX flag (`.dcx`) and the entry list. -/
structure ParamBND where
  dcx : Bool
  entries : List ParamBNDEntry
deriving DecidableEq

/-- A loaded param table.  The `ParamTable` / `DrawParamTable` constructors
live in the params core, which is not among the given sources; per the
specification a table is decoded from the entry bytes using the schema bundle
it is handed, so the model records the payload together with the paramdef
version (`PARAMDEF_BND` argument) it was constructed with. -/
structure ParamTableModel where
  source : List Nat
  paramdef_version : String
deriving DecidableEq

/-- `DarkSoulsGameParameters.__init__` for an already-loaded BND: select the
paramdef bundle once from the DCX flag (`dsr` when compressed, `ptd`
otherwise) and decode every archive entry with that single bundle into
`self._data`, keyed by entry path. -/
def gameParamsInit (bnd : ParamBND) : List (String × ParamTableModel) :=
  let paramdef := if bnd.dcx then "dsr" else "ptd"
  bnd.entries.foldl
    (fun d e => dinsert d e.path { source := e.data, paramdef_version := paramdef }) []

/-- The two slots `[None, None]` a DrawParam table name can fill. -/
structure DrawParamSlots where
  slot0 : Option ParamTableModel
  slot1 : Option ParamTableModel
deriving DecidableEq

/-- `DRAWPARAM_ALIASES` from `dark_souls_params.py` (base name to nickname;
the field-nickname dictionaries are empty and dropped here). -/
def DRAWPARAM_ALIASES : List (String × String) :=
  [("DofBank", "Dof"), ("EnvLightTexBank", "EnvLightTex"), ("FogBank", "Fog"),
   ("LensFlareBank", "LensFlare"), ("LensFlareExBank", "LensFlareEx"),
   ("LightBank", "AmbientLight"), ("LightScatteringBank", "ScatteredLight"),
   ("LodBank", "Lod"), ("PointLightBank", "PointLight"), ("ShadowBank", "Shadow"),
   ("ToneCorrectBank", "ToneCorrect"), ("ToneMapBank", "ToneMap"),
   ("s_LightBank", "s_AmbientLight")]

/-- The slot computation of `DrawParamBlock.__init__`: strip `.param` (last
six characters), split the stem on underscores; two parts mean slot 0, three
parts with middle part `1` mean slot 1, any other middle part or part count is
a `ValueError`; an `s`-prefixed first part prepends `s_` to the base name. -/
def parse_draw_param_basename (basename : String) : Except MSGError (Nat × String) :=
  match strSplitChar (strDropRight basename 6) '_' with
  | [p0, b] => .ok (0, if strStartsWith p0 "s" then "s_" ++ b else b)
  | [p0, p1, b] =>
    if p1 ≠ "1" then
      .error (.valueError "Only slot 0 and slot 1 can exist in DrawParams.")
    else .ok (1, if strStartsWith p0 "s" then "s_" ++ b else b)
  | _ => .error (.valueError ("Malformed params name: " ++ basename))

/-- The `self._data.setdefault(basename, [None, None])[slot] = table`
assignment of `DrawParamBlock.__init__`. -/
def draw_slot_store (d : List (String × DrawParamSlots)) (basename : String)
    (slot : Nat) (table : ParamTableModel) : List (String × DrawParamSlots) :=
  let slots := (dget d basename).getD { slot0 := none, slot1 := none }
  dinsert d basename
    (if slot = 1 then { slots with slot1 := some table }
     else { slots with slot0 := some table })

/-- The entry loop of `DrawParamBlock.__init__`: compute the slot and base
name, store the table (decoded with the block-wide paramdef bundle) into
`self._data`, and look the base name up in `DRAWPARAM_ALIASES`, raising
`KeyError` when absent.  (The source performs the store before the alias
lookup; since the `KeyError` aborts the whole constructor and the partial
`_data` is never exposed, checking the alias first is observably the same.) -/
def draw_param_block_load (paramdef : String) :
    List ParamBNDEntry → List (String × DrawParamSlots) →
    Except MSGError (List (String × DrawParamSlots))
  | [], d => .ok d
  | e :: rest, d =>
    match parse_draw_param_basename e.basename with
    | .error er => .error er
    | .ok (slot, basename) =>
      match dget DRAWPARAM_ALIASES basename with
      | none => .error (.keyError basename)
      | some _ =>
        draw_param_block_load paramdef rest
          (draw_slot_store d basename slot { source := e.data, paramdef_version := paramdef })

/-- `DrawParamBlock.__init__`: the paramdef bundle is selected once from the
DCX flag of the DrawParam BND, then every entry is loaded with it. -/
def drawParamBlockInit (bnd : ParamBND) :
    Except MSGError (List (String × DrawParamSlots)) :=
  draw_param_block_load (if bnd.dcx then "dsr" else "ptd") bnd.entries []

/-- `_MSGBND_INDEX_NAMES` fragment for the merge/split scenario: the mergeable
category `GoodNames` and its Patch counterpart. -/
def tblGood : List (Nat × String) := [(10, "GoodNames"), (11, "GoodNamesPatch")]

/-- Item archive for the merge/split scenario: base `GoodNames` holds exactly
`{1: "a"}` and `GoodNamesPatch` exactly `{2: "b"}`. -/
def itemBndGood : MsgBND :=
  { dcx_magic := false
    entries := [{ id := 10, name := "good.fmg", data := [(1, "a")] },
                { id := 11, name := "goodp.fmg", data := [(2, "b")] }] }

/-- Empty menu archive used by the concrete scenarios. -/
def menuBndEmpty : MsgBND := { dcx_magic := false, entries := [] }

/-- `_MSGBND_INDEX_NAMES` fragment for the never-merge scenario: `EventText`
(a `_CANNOT_MERGE_PATCH` member) and its Patch counterpart. -/
def tblEvent : List (Nat × String) := [(20, "EventText"), (21, "EventTextPatch")]

/-- Item archive for the never-merge scenario: base `EventText` holds exactly
`{1: "a"}` and `EventTextPatch` exactly `{2: "b"}`. -/
def itemBndEvent : MsgBND :=
  { dcx_magic := false
    entries := [{ id := 20, name := "event.fmg", data := [(1, "a")] },
                { id := 21, name := "eventp.fmg", data := [(2, "b")] }] }

/-- A directory state whose two archives disagree on the DCX signal (item
compressed, menu not), as obtained from `MSGDirectory(None)` with the archives
assigned directly. -/
def mismatchedState : MSGState :=
  initState { dcx_magic := true, entries := [] } { dcx_magic := false, entries := [] }

/-- A directory state holding the three `Good` item-text categories, each with
one entry at index 1, for the deletion scenario. -/
def goodItemState : MSGState :=
  { categories := [("GoodNames", [(1, "x")]), ("GoodSummaries", [(1, "s")]),
                   ("GoodDescriptions", [(1, "d")])]
    is_patch := []
    is_menu := []
    original_names := []
    item_msgbnd := menuBndEmpty
    menu_msgbnd := menuBndEmpty }

/-- A state with one category whose name has no entry in the id table, used to
exercise the write-failure paths of `save`. -/
def unknownNameState : MSGState :=
  { categories := [("Mystery", [(1, "x")])]
    is_patch := []
    is_menu := [("Mystery", false)]
    original_names := []
    item_msgbnd := menuBndEmpty
    menu_msgbnd := menuBndEmpty }

/-- A one-entry param archive (DCX-compressed), for the dialect-selection
scenario. -/
def paramBndDcx : ParamBND :=
  { dcx := true, entries := [{ path := "p", basename := "X.param", data := [1] }] }

theorem dget_dinsert {α β : Type} [DecidableEq α] (d : List (α × β)) (k x : α) (v : β) :
    dget (dinsert d k v) x = if x = k then some v else dget d x := by
  induction d with
  | nil => simp [dinsert, dget]
  | cons hd tl ih =>
    obtain ⟨k0, v0⟩ := hd
    by_cases hk : k = k0 <;> by_cases hx : x = k <;> by_cases hx0 : x = k0 <;>
      simp_all [dinsert, dget]

theorem dget_eq_none_of_not_mem {α β : Type} [DecidableEq α] (l : List (α × β)) (x : α)
    (h : x ∉ l.map Prod.fst) : dget l x = none := by
  induction l with
  | nil => simp [dget]
  | cons hd tl ih =>
    obtain ⟨k, v⟩ := hd
    simp only [List.map_cons, List.mem_cons] at h
    push_neg at h
    simp [dget, h.1, ih h.2]

theorem mem_of_dget_eq_some {α β : Type} [DecidableEq α] (l : List (α × β)) (x : α) (v : β)
    (h : dget l x = some v) : x ∈ l.map Prod.fst := by
  induction l with
  | nil => simp [dget] at h
  | cons hd tl ih =>
    obtain ⟨k, w⟩ := hd
    by_cases hx : x = k
    · simp [hx]
    · simp [dget, hx] at h
      simp [ih h]

theorem dget_dupdate_of_not_mem {α β : Type} [DecidableEq α] (d e : List (α × β)) (x : α)
    (h : x ∉ e.map Prod.fst) : dget (dupdate d e) x = dget d x := by
  induction e generalizing d with
  | nil => simp [dupdate]
  | cons hd tl ih =>
    obtain ⟨k, v⟩ := hd
    simp only [List.map_cons, List.mem_cons] at h
    push_neg at h
    have step : dupdate d ((k, v) :: tl) = dupdate (dinsert d k v) tl := rfl
    rw [step, ih (dinsert d k v) h.2, dget_dinsert]
    simp [h.1]

theorem dget_dupdate_of_mem {α β : Type} [DecidableEq α] (d e : List (α × β)) (x : α) (v : β)
    (hnd : (e.map Prod.fst).Nodup) (h : dget e x = some v) :
    dget (dupdate d e) x = some v := by
  induction e generalizing d with
  | nil => simp [dget] at h
  | cons hd tl ih =>
    obtain ⟨k, w⟩ := hd
    simp only [List.map_cons, List.nodup_cons] at hnd
    have step : dupdate d ((k, w) :: tl) = dupdate (dinsert d k w) tl := rfl
    by_cases hx : x = k
    · subst hx
      simp [dget] at h
      subst h
      rw [step, dget_dupdate_of_not_mem _ _ _ hnd.1, dget_dinsert]
      simp
    · simp [dget, hx] at h
      rw [step]
      exact ih (dinsert d k w) hnd.2 h

theorem mem_addPatchKeys_of_mem (base : String) (data : List (Nat × String))
    (s : List (String × Nat)) (x : String × Nat) (h : x ∈ s) :
    x ∈ addPatchKeys base s data := by
  induction data generalizing s with
  | nil => simpa [addPatchKeys] using h
  | cons hd tl ih =>
    obtain ⟨i, v⟩ := hd
    exact ih _ (List.mem_insert_of_mem h)

theorem mem_addPatchKeys (base : String) (data : List (Nat × String))
    (s : List (String × Nat)) (i : Nat) (h : i ∈ data.map Prod.fst) :
    (base, i) ∈ addPatchKeys base s data := by
  induction data generalizing s with
  | nil => simp at h
  | cons hd tl ih =>
    obtain ⟨j, v⟩ := hd
    simp only [List.map_cons, List.mem_cons] at h
    rcases h with hji | ht
    · subst hji
      exact mem_addPatchKeys_of_mem base tl (s.insert (base, i)) (base, i)
        (List.mem_insert_self _ _)
    · exact ih _ ht

theorem strEndsWith_Patch_ne (nm : String) (hend : strEndsWith nm "Patch" = true) :
    strDropRight nm 5 ≠ nm := by
  have h5 : nm.data.reverse.take 5 = "Patch".data.reverse := by
    simpa [strEndsWith] using hend
  have hlen5 : (nm.data.reverse.take 5).length = 5 := by rw [h5]; rfl
  rw [List.length_take, List.length_reverse] at hlen5
  have hge : 5 ≤ nm.data.length := by
    rcases Nat.le_total 5 nm.data.length with h | h
    · exact h
    · rw [Nat.min_eq_right h] at hlen5
      omega
  intro hc
  have hd2 : nm.data.take (nm.data.length - 5) = nm.data := congrArg String.data hc
  have hlen2 := congrArg List.length hd2
  rw [List.length_take, Nat.min_eq_left (Nat.sub_le _ _)] at hlen2
  omega

/-- Claim C2: a category whose mapped name ends in "Patch" is folded into the
base category obtained by stripping the five-character suffix: every entry of
the Patch FMG overrides the base mapping at the same index, every folded
`(category, index)` pair is recorded in the provenance set `_is_patch`, no
category other than the stripped base name is touched, and the stripped base
name (not the Patch name) is the key exposed in `categories`. -/
theorem patch_category_folding (tbl : List (Nat × String)) (is_menu : Bool)
    (st : MSGState) (e : MsgBNDEntry) (nm : String)
    (hid : dget tbl e.id = some nm)
    (hend : strEndsWith nm "Patch" = true)
    (hnd : (e.data.map Prod.fst).Nodup) :
    ∃ st', load_one_fmg_entry tbl is_menu st e = .ok st' ∧
      (∀ i v, dget e.data i = some v →
        dget (catEntries st' (strDropRight nm 5)) i = some v) ∧
      (∀ i, i ∈ e.data.map Prod.fst → (strDropRight nm 5, i) ∈ st'.is_patch) ∧
      (∀ c, c ≠ strDropRight nm 5 → dget st'.categories c = dget st.categories c) ∧
      (dget st'.categories (strDropRight nm 5)).isSome = true ∧
      (strDropRight nm 5 ≠ nm ∧ dget st'.categories nm = dget st.categories nm) := by
  have hne := strEndsWith_Patch_ne nm hend
  unfold load_one_fmg_entry
  rw [hid]
  simp only [hend, if_true]
  refine ⟨_, rfl, ?_, ?_, ?_, ?_, hne, ?_⟩
  · intro i v hv
    simp only [catEntries, dget_dinsert, if_pos rfl, Option.getD_some]
    exact dget_dupdate_of_mem _ _ _ _ hnd hv
  · intro i hi
    exact mem_addPatchKeys _ _ _ _ hi
  · intro c hc
    simp only [dget_dinsert, if_neg hc]
  · simp [dget_dinsert]
  · have hne2 : nm ≠ strDropRight nm 5 := Ne.symm hne
    simp only [dget_dinsert, if_neg hne2]

theorem patch_category_folding_witness :
    ∃ st', load_one_fmg_entry tblGood false (initState itemBndGood menuBndEmpty)
        { id := 11, name := "goodp.fmg", data := [(2, "b")] } = .ok st' ∧
      dget (catEntries st' (strDropRight "GoodNamesPatch" 5)) 2 = some "b" ∧
      (strDropRight "GoodNamesPatch" 5, 2) ∈ st'.is_patch := by
  obtain ⟨st', h1, h2, h3, _, _, _⟩ :=
    patch_category_folding tblGood false (initState itemBndGood menuBndEmpty)
      { id := 11, name := "goodp.fmg", data := [(2, "b")] } "GoodNamesPatch"
      (by decide) (by decide) (by decide)
  exact ⟨st', h1, h2 2 "b" (by decide), h3 2 (by decide)⟩

theorem load_one_ok_of_mapped (tbl : List (Nat × String)) (is_menu : Bool)
    (st : MSGState) (e : MsgBNDEntry) (h : (dget tbl e.id).isSome = true) :
    ∃ st', load_one_fmg_entry tbl is_menu st e = .ok st' := by
  unfold load_one_fmg_entry
  cases hh : dget tbl e.id with
  | none => rw [hh] at h; simp at h
  | some nm =>
    by_cases hp : strEndsWith nm "Patch" = true <;> simp [hp]

theorem load_one_err_inv (tbl : List (Nat × String)) (is_menu : Bool)
    (st : MSGState) (e : MsgBNDEntry) (er : MSGError)
    (h : load_one_fmg_entry tbl is_menu st e = .error er) :
    dget tbl e.id = none ∧ er = .unexpectedCategory e.id := by
  unfold load_one_fmg_entry at h
  cases hh : dget tbl e.id with
  | none =>
    rw [hh] at h
    simp at h
    exact ⟨rfl, h.symm⟩
  | some nm =>
    rw [hh] at h
    by_cases hp : strEndsWith nm "Patch" = true <;> simp [hp] at h

theorem load_entries_ok_iff (tbl : List (Nat × String)) (is_menu : Bool) :
    ∀ (es : List MsgBNDEntry) (st : MSGState),
      (∃ st', load_fmg_entries_from_bnd tbl is_menu st es = .ok st') ↔
        ∀ e ∈ es, (dget tbl e.id).isSome = true := by
  intro es
  induction es with
  | nil => intro st; simp [load_fmg_entries_from_bnd]
  | cons e rest ih =>
    intro st
    constructor
    · rintro ⟨st', h⟩
      unfold load_fmg_entries_from_bnd at h
      cases h1 : load_one_fmg_entry tbl is_menu st e with
      | error er => rw [h1] at h; simp at h
      | ok st1 =>
        rw [h1] at h
        intro x hx
        rcases List.mem_cons.mp hx with hxe | hxr
        · subst hxe
          cases hh : dget tbl x.id with
          | none =>
            unfold load_one_fmg_entry at h1
            rw [hh] at h1
            simp at h1
          | some nm => simp
        · exact ((ih st1).mp ⟨st', h⟩) x hxr
    · intro hall
      obtain ⟨st1, h1⟩ :=
        load_one_ok_of_mapped tbl is_menu st e (hall e (List.mem_cons_self e rest))
      obtain ⟨st', h2⟩ := (ih st1).mpr (fun x hx => hall x (List.mem_cons_of_mem e hx))
      exact ⟨st', by unfold load_fmg_entries_from_bnd; rw [h1]; exact h2⟩

theorem load_entries_err_inv (tbl : List (Nat × String)) (is_menu : Bool) :
    ∀ (es : List MsgBNDEntry) (st : MSGState) (er : MSGError),
      load_fmg_entries_from_bnd tbl is_menu st es = .error er →
      ∃ i, er = .unexpectedCategory i ∧ dget tbl i = none := by
  intro es
  induction es with
  | nil => intro st er h; simp [load_fmg_entries_from_bnd] at h
  | cons e rest ih =>
    intro st er h
    unfold load_fmg_entries_from_bnd at h
    cases h1 : load_one_fmg_entry tbl is_menu st e with
    | error er0 =>
      rw [h1] at h
      simp at h
      obtain ⟨hn, he⟩ := load_one_err_inv tbl is_menu st e er0 h1
      exact ⟨e.id, by rw [← h, he], hn⟩
    | ok st1 =>
      rw [h1] at h
      exact ih st1 er h

/-- Claim C5: with the DCX check passed, `open()` succeeds exactly when every
archive entry id of both MSGBNDs is mapped by the fixed id table; an unmapped
id anywhere makes the whole `__init__` raise the unexpected-index
`ValueError` for an unmapped id, so no partial category set is exposed, and
mapped ids never raise it. -/
theorem open_aborts_on_unmapped_entry (tbl : List (Nat × String)) (item menu : MsgBND)
    (hdcx : item.dcx_magic = menu.dcx_magic) :
    ((∀ e ∈ item.entries ++ menu.entries, (dget tbl e.id).isSome = true) →
      ∃ st, msgDirInit tbl item menu = .ok st) ∧
    ((∃ e ∈ item.entries ++ menu.entries, dget tbl e.id = none) →
      ∃ i, msgDirInit tbl item menu = .error (.unexpectedCategory i) ∧
        dget tbl i = none) := by
  have hinit : msgDirInit tbl item menu =
      (match load_fmg_entries_from_bnd tbl false (initState item menu) item.entries with
       | .error er => .error er
       | .ok st1 => load_fmg_entries_from_bnd tbl true st1 menu.entries) := by
    unfold msgDirInit
    rw [hdcx]
    cases hm : menu.dcx_magic <;> simp
  constructor
  · intro hall
    obtain ⟨st1, h1⟩ := (load_entries_ok_iff tbl false item.entries (initState item menu)).mpr
      (fun e he => hall e (List.mem_append_left _ he))
    obtain ⟨st2, h2⟩ := (load_entries_ok_iff tbl true menu.entries st1).mpr
      (fun e he => hall e (List.mem_append_right _ he))
    refine ⟨st2, ?_⟩
    rw [hinit, h1]
    exact h2
  · rintro ⟨e, he, hnone⟩
    cases h1 : load_fmg_entries_from_bnd tbl false (initState item menu) item.entries with
    | error er =>
      obtain ⟨i, hi, hni⟩ := load_entries_err_inv tbl false item.entries _ er h1
      exact ⟨i, by rw [hinit, h1, hi], hni⟩
    | ok st1 =>
      have hitem : ∀ x ∈ item.entries, (dget tbl x.id).isSome = true :=
        (load_entries_ok_iff tbl false item.entries (initState item menu)).mp ⟨st1, h1⟩
      have hemenu : e ∈ menu.entries := by
        rcases List.mem_append.mp he with hmem | hmem
        · exact absurd (hitem e hmem) (by simp [hnone])
        · exact hmem
      cases h2 : load_fmg_entries_from_bnd tbl true st1 menu.entries with
      | error er =>
        obtain ⟨i, hi, hni⟩ := load_entries_err_inv tbl true menu.entries st1 er h2
        refine ⟨i, ?_, hni⟩
        rw [hinit, h1]
        show load_fmg_entries_from_bnd tbl true st1 menu.entries = _
        rw [h2, hi]
      | ok st2 =>
        have hmenu := (load_entries_ok_iff tbl true menu.entries st1).mp ⟨st2, h2⟩
        exact absurd (hmenu e hemenu) (by simp [hnone])

theorem open_aborts_on_unmapped_entry_witness :
    itemBndEvent.dcx_magic = menuBndEmpty.dcx_magic ∧
    (∃ e ∈ itemBndEvent.entries ++ menuBndEmpty.entries, dget tblGood e.id = none) ∧
    ∃ i, msgDirInit tblGood itemBndEvent menuBndEmpty =
        .error (.unexpectedCategory i) ∧ dget tblGood i = none := by
  refine ⟨by decide, ?_, ?_⟩
  · exact ⟨{ id := 20, name := "event.fmg", data := [(1, "a")] }, by decide, by decide⟩
  · exact (open_aborts_on_unmapped_entry tblGood itemBndEvent menuBndEmpty (by decide)).2
      ⟨{ id := 20, name := "event.fmg", data := [(1, "a")] }, by decide, by decide⟩

theorem error_ne_of {γ δ : Type} {e : Except MSGError γ} {er : MSGError}
    (hne : e ≠ .error .inconsistentDialect) (heq : e = .error er) :
    (Except.error er : Except MSGError δ) ≠ .error .inconsistentDialect := by
  intro hc
  injection hc with hc
  rw [hc] at heq
  exact hne heq

theorem update_msgbnd_entry_ne_dialect (tbl : List (Nat × String)) (bnd : MsgBND)
    (n : String) (es : List (Nat × String)) :
    update_msgbnd_entry tbl bnd n es ≠ .error .inconsistentDialect := by
  intro hc
  unfold update_msgbnd_entry at hc
  split at hc
  · simp at hc
  · split at hc
    · simp at hc
    · simp at hc

theorem removeMergedPatchEntries_ne_dialect (tbl : List (Nat × String)) (st : MSGState) :
    ∀ (names : List String) (acc : MsgBND × MsgBND),
      removeMergedPatchEntries tbl st names acc ≠ .error .inconsistentDialect := by
  intro names
  induction names with
  | nil => intro acc; simp [removeMergedPatchEntries]
  | cons pname rest ih =>
    intro acc
    obtain ⟨ni, nm⟩ := acc
    unfold removeMergedPatchEntries
    cases dget st.is_menu pname with
    | none => exact ih (ni, nm)
    | some m =>
      cases nameToId tbl pname with
      | none => simp
      | some idx =>
        by_cases hm : m = true
        · simp only [hm, if_true]
          exact ih _
        · simp only [Bool.not_eq_true] at hm
          simp only [hm, Bool.false_eq_true, if_false]
          exact ih _

theorem save_patch_step_ne_dialect (tbl : List (Nat × String)) (st : MSGState)
    (ni nm : MsgBND) (n : String) (p : List (Nat × String)) :
    save_patch_step tbl st ni nm n p ≠ .error .inconsistentDialect := by
  intro hc
  unfold save_patch_step at hc
  split at hc
  · simp at hc
  · split at hc
    · simp at hc
    · split at hc
      · split at hc
        · rename_i er heq
          simp only [Except.error.injEq] at hc
          rw [hc] at heq
          exact update_msgbnd_entry_ne_dialect _ _ _ _ heq
        · simp at hc
      · split at hc
        · rename_i er heq
          simp only [Except.error.injEq] at hc
          rw [hc] at heq
          exact update_msgbnd_entry_ne_dialect _ _ _ _ heq
        · simp at hc

theorem save_main_step_ne_dialect (tbl : List (Nat × String)) (st : MSGState)
    (ni nm : MsgBND) (n : String) (es : List (Nat × String)) :
    save_main_step tbl st ni nm n es ≠ .error .inconsistentDialect := by
  intro hc
  unfold save_main_step at hc
  split at hc
  · simp at hc
  · split at hc
    · split at hc
      · rename_i er heq
        simp only [Except.error.injEq] at hc
        rw [hc] at heq
        exact update_msgbnd_entry_ne_dialect _ _ _ _ heq
      · simp at hc
    · split at hc
      · rename_i er heq
        simp only [Except.error.injEq] at hc
        rw [hc] at heq
        exact update_msgbnd_entry_ne_dialect _ _ _ _ heq
      · simp at hc

theorem save_one_category_ne_dialect (tbl : List (Nat × String)) (st : MSGState)
    (sep : Bool) (ni nm : MsgBND) (n : String) (es : List (Nat × String)) :
    save_one_category tbl st sep ni nm n es ≠ .error .inconsistentDialect := by
  intro hc
  unfold save_one_category at hc
  split at hc
  · rename_i er heq
    simp only [Except.error.injEq] at hc
    rw [hc] at heq
    exact save_patch_step_ne_dialect _ _ _ _ _ _ heq
  · exact save_main_step_ne_dialect _ _ _ _ _ _ hc

theorem save_categories_ne_dialect (tbl : List (Nat × String)) (st : MSGState)
    (sep : Bool) :
    ∀ (cats : List (String × List (Nat × String))) (acc : MsgBND × MsgBND),
      save_categories tbl st sep cats acc ≠ .error .inconsistentDialect := by
  intro cats
  induction cats with
  | nil => intro acc; simp [save_categories]
  | cons hd rest ih =>
    intro acc
    obtain ⟨n, es⟩ := hd
    obtain ⟨ni, nm⟩ := acc
    unfold save_categories
    cases heq : save_one_category tbl st sep ni nm n es with
    | error er => exact error_ne_of (save_one_category_ne_dialect tbl st sep ni nm n es) heq
    | ok acc1 => exact ih acc1

theorem save_pack_ne_dialect (tbl : List (Nat × String)) (st : MSGState) (sep : Bool) :
    save_pack tbl st sep ≠ .error .inconsistentDialect := by
  unfold save_pack
  split
  · rename_i er heq
    refine error_ne_of ?_ heq
    split
    · simp
    · exact removeMergedPatchEntries_ne_dialect tbl st _ _
  · exact save_categories_ne_dialect tbl st sep _ _

/-- Claim C4 (amended): the compression-dialect consistency check happens at
open, not at write: `__init__` raises the mixed-DCX `ValueError` exactly when
the two archives disagree on the DCX signal (so agreeing archives never raise
it), while `save` performs no dialect check and can never raise it. -/
theorem dialect_check_at_open (tbl : List (Nat × String)) (item menu : MsgBND)
    (st : MSGState) (sep wI wM : Bool) :
    (msgDirInit tbl item menu = .error .inconsistentDialect ↔
      item.dcx_magic ≠ menu.dcx_magic) ∧
    (save tbl st sep wI wM).err ≠ some .inconsistentDialect := by
  constructor
  · constructor
    · intro h heq
      have hinit : msgDirInit tbl item menu =
          (match load_fmg_entries_from_bnd tbl false (initState item menu) item.entries with
           | .error er => .error er
           | .ok st1 => load_fmg_entries_from_bnd tbl true st1 menu.entries) := by
        unfold msgDirInit
        rw [heq]
        cases hm : menu.dcx_magic <;> simp
      rw [hinit] at h
      cases h1 : load_fmg_entries_from_bnd tbl false (initState item menu) item.entries with
      | error er =>
        rw [h1] at h
        have h2 : (Except.error er : Except MSGError MSGState) =
            .error .inconsistentDialect := h
        obtain ⟨i, hi, -⟩ := load_entries_err_inv tbl false item.entries _ er h1
        rw [hi] at h2
        simp at h2
      | ok st1 =>
        rw [h1] at h
        have h2 : load_fmg_entries_from_bnd tbl true st1 menu.entries =
            .error .inconsistentDialect := h
        obtain ⟨i, hi, -⟩ := load_entries_err_inv tbl true menu.entries st1 _ h2
        simp at hi
    · intro hne
      cases hi : item.dcx_magic <;> cases hm : menu.dcx_magic <;>
        simp_all [msgDirInit]
  · intro hc
    unfold save at hc
    split at hc
    · rename_i er heq
      simp only [Option.some.injEq] at hc
      rw [hc] at heq
      exact save_pack_ne_dialect _ _ _ heq
    · cases wI <;> cases wM <;> simp_all

/-- Claim C4 counterexample: a set whose two archives disagree on the DCX
signal (item compressed, menu not) on which `save` nevertheless succeeds
with no inconsistent-dialect error — writing performs no such check. -/
theorem save_skips_dialect_check :
    mismatchedState.item_msgbnd.dcx_magic = true ∧
    mismatchedState.menu_msgbnd.dcx_magic = false ∧
    (save [] mismatchedState false true true).err = none := by decide

/-- Claim C1 (code-bug evaluation): opening the merge/split scenario does show
the merged view `{1: "a", 2: "b"}` for `GoodNames`, and saving with
`separate_patch=True` writes `{2: "b"}` into the Patch entry, but the base
entry is packed from the full merged dictionary `{1: "a", 2: "b"}` (the
source passes `fmg_entries` instead of `fmg_entries_main`), not the claimed
`{1: "a"}`. -/
theorem merge_split_round_trip_bug :
    ((msgDirInit tblGood itemBndGood menuBndEmpty).toOption.map (fun st =>
        st.categories) = some [("GoodNames", [(1, "a"), (2, "b")])]) ∧
    ((msgDirInit tblGood itemBndGood menuBndEmpty).toOption.map (fun st =>
        (save tblGood st true true true).err) = some none) ∧
    ((msgDirInit tblGood itemBndGood menuBndEmpty).toOption.map (fun st =>
        entryData (save tblGood st true true true).new_self.item_msgbnd 10)
      = some (some [(1, "a"), (2, "b")])) ∧
    ((msgDirInit tblGood itemBndGood menuBndEmpty).toOption.map (fun st =>
        entryData (save tblGood st true true true).new_self.item_msgbnd 11)
      = some (some [(2, "b")])) := by
  refine ⟨by decide, by decide, by decide, by decide⟩

/-- Claim C3 (code-bug evaluation): in the never-merge scenario (`EventText`,
a `_CANNOT_MERGE_PATCH` member, with a provenance-marked entry), saving with
`separate_patch=False` does produce a physically separate Patch entry holding
`{2: "b"}`, but the base entry still contains the patch-provenance index
(`{1: "a", 2: "b"}` is packed from the full merged dictionary), so the
entries are duplicated rather than split by provenance. -/
theorem never_merge_split_bug :
    ((msgDirInit tblEvent itemBndEvent menuBndEmpty).toOption.map (fun st =>
        st.is_patch) = some [("EventText", 2)]) ∧
    ((msgDirInit tblEvent itemBndEvent menuBndEmpty).toOption.map (fun st =>
        (save tblEvent st false true true).err) = some none) ∧
    ((msgDirInit tblEvent itemBndEvent menuBndEmpty).toOption.map (fun st =>
        entryData (save tblEvent st false true true).new_self.item_msgbnd 20)
      = some (some [(1, "a"), (2, "b")])) ∧
    ((msgDirInit tblEvent itemBndEvent menuBndEmpty).toOption.map (fun st =>
        entryData (save tblEvent st false true true).new_self.item_msgbnd 21)
      = some (some [(2, "b")])) := by
  refine ⟨by decide, by decide, by decide, by decide⟩

/-- Claim C8: packing happens on in-memory copies and `self` is only updated
after both writes succeed: whenever `save` raises (packing error or failed
write), the directory state it leaves behind is exactly the input state; on
success only the two archive fields are replaced. -/
theorem save_failure_keeps_archives (tbl : List (Nat × String)) (st : MSGState)
    (sep wI wM : Bool) :
    ((save tbl st sep wI wM).err.isSome = true →
      (save tbl st sep wI wM).new_self = st) ∧
    ((save tbl st sep wI wM).err = none →
      (save tbl st sep wI wM).new_self.categories = st.categories ∧
      (save tbl st sep wI wM).new_self.is_patch = st.is_patch ∧
      (save tbl st sep wI wM).new_self.is_menu = st.is_menu ∧
      (save tbl st sep wI wM).new_self.original_names = st.original_names) := by
  unfold save
  cases hp : save_pack tbl st sep with
  | error er => simp
  | ok acc =>
    obtain ⟨ni, nm⟩ := acc
    cases wI <;> cases wM <;> simp

theorem save_failure_keeps_archives_witness :
    (save [] unknownNameState false true true).err.isSome = true ∧
    (save [] unknownNameState false true true).new_self = unknownNameState :=
  ⟨by decide,
   (save_failure_keeps_archives [] unknownNameState false true true).1 (by decide)⟩

/-- Claim C9: subscripting the directory with a string that is not a loaded
category name raises `AttributeError` (the internal `KeyError` is caught and
re-raised), never `KeyError`; subscripting with a loaded category name
returns that category mapping. -/
theorem getitem_attribute_error (st : MSGState) (c : String) :
    (dget st.categories c = none →
      msg_getitem st c = .error (.attributeError c) ∧
      ∀ k, msg_getitem st c ≠ .error (.keyError k)) ∧
    (∀ d, dget st.categories c = some d → msg_getitem st c = .ok d) := by
  constructor
  · intro h
    constructor
    · simp [msg_getitem, h]
    · intro k
      simp [msg_getitem, h]
  · intro d h
    simp [msg_getitem, h]

theorem getitem_attribute_error_witness :
    dget goodItemState.categories "Subtitles" = none ∧
    msg_getitem goodItemState "Subtitles" = .error (.attributeError "Subtitles") :=
  ⟨by decide, ((getitem_attribute_error goodItemState "Subtitles").1 (by decide)).1⟩

theorem gameParams_fold_version (pd : String) :
    ∀ (es : List ParamBNDEntry) (acc : List (String × ParamTableModel)),
      (∀ p t, dget acc p = some t → t.paramdef_version = pd) →
      ∀ p t, dget (es.foldl (fun d e =>
          dinsert d e.path { source := e.data, paramdef_version := pd }) acc) p = some t →
        t.paramdef_version = pd := by
  intro es
  induction es with
  | nil => intro acc hacc; exact hacc
  | cons e rest ih =>
    intro acc hacc p t ht
    refine ih _ ?_ p t ht
    intro q s hq
    rw [dget_dinsert] at hq
    by_cases hqe : q = e.path
    · rw [if_pos hqe] at hq
      injection hq with hq
      rw [← hq]
    · rw [if_neg hqe] at hq
      exact hacc q s hq

theorem draw_slot_store_version (pd : String) (d : List (String × DrawParamSlots))
    (basename : String) (slot : Nat) (src : List Nat)
    (hinv : ∀ n s, dget d n = some s →
      (∀ t, s.slot0 = some t → t.paramdef_version = pd) ∧
      (∀ t, s.slot1 = some t → t.paramdef_version = pd)) :
    ∀ n s, dget (draw_slot_store d basename slot
        { source := src, paramdef_version := pd }) n = some s →
      (∀ t, s.slot0 = some t → t.paramdef_version = pd) ∧
      (∀ t, s.slot1 = some t → t.paramdef_version = pd) := by
  intro n s hn
  unfold draw_slot_store at hn
  rw [dget_dinsert] at hn
  by_cases hnb : n = basename
  · rw [if_pos hnb] at hn
    injection hn with hn
    have hbase : ∀ t, ((dget d basename).getD
        { slot0 := none, slot1 := none }).slot0 = some t → t.paramdef_version = pd := by
      cases hb : dget d basename with
      | none => intro t ht; simp at ht
      | some s0 => exact (hinv basename s0 hb).1
    have hbase1 : ∀ t, ((dget d basename).getD
        { slot0 := none, slot1 := none }).slot1 = some t → t.paramdef_version = pd := by
      cases hb : dget d basename with
      | none => intro t ht; simp at ht
      | some s0 => exact (hinv basename s0 hb).2
    by_cases hs : slot = 1
    · rw [if_pos hs] at hn
      rw [← hn]
      refine ⟨hbase, ?_⟩
      intro t ht
      simp at ht
      rw [← ht]
    · rw [if_neg hs] at hn
      rw [← hn]
      refine ⟨?_, hbase1⟩
      intro t ht
      simp at ht
      rw [← ht]
  · rw [if_neg hnb] at hn
    exact hinv n s hn

theorem draw_load_version (pd : String) :
    ∀ (es : List ParamBNDEntry) (acc d : List (String × DrawParamSlots)),
      (∀ n s, dget acc n = some s →
        (∀ t, s.slot0 = some t → t.paramdef_version = pd) ∧
        (∀ t, s.slot1 = some t → t.paramdef_version = pd)) →
      draw_param_block_load pd es acc = .ok d →
      ∀ n s, dget d n = some s →
        (∀ t, s.slot0 = some t → t.paramdef_version = pd) ∧
        (∀ t, s.slot1 = some t → t.paramdef_version = pd) := by
  intro es
  induction es with
  | nil =>
    intro acc d hacc h
    unfold draw_param_block_load at h
    injection h with h
    rw [← h]
    exact hacc
  | cons e rest ih =>
    intro acc d hacc h
    unfold draw_param_block_load at h
    split at h
    · simp at h
    · split at h
      · simp at h
      · exact ih _ d (draw_slot_store_version pd acc _ _ e.data hacc) h

/-- Claim C7: the paramdef schema dialect is chosen exactly once per archive
from the DCX signal — `dsr` when the archive is DCX-compressed, `ptd`
otherwise — and every table decoded from that archive (every GameParam entry
and every DrawParam slot) carries that single choice. -/
theorem paramdef_dialect_selected_once (bnd : ParamBND) :
    (∀ p t, dget (gameParamsInit bnd) p = some t →
      t.paramdef_version = (if bnd.dcx then "dsr" else "ptd")) ∧
    (∀ d, drawParamBlockInit bnd = .ok d → ∀ n s, dget d n = some s →
      (∀ t, s.slot0 = some t →
        t.paramdef_version = (if bnd.dcx then "dsr" else "ptd")) ∧
      (∀ t, s.slot1 = some t →
        t.paramdef_version = (if bnd.dcx then "dsr" else "ptd"))) := by
  constructor
  · intro p t ht
    unfold gameParamsInit at ht
    refine gameParams_fold_version (if bnd.dcx then "dsr" else "ptd")
      bnd.entries [] ?_ p t ht
    intro q s hq
    simp [dget] at hq
  · intro d hd
    unfold drawParamBlockInit at hd
    refine draw_load_version (if bnd.dcx then "dsr" else "ptd")
      bnd.entries [] d ?_ hd
    intro n s hn
    simp [dget] at hn

theorem paramdef_dialect_selected_once_witness :
    dget (gameParamsInit paramBndDcx) "p"
      = some { source := [1], paramdef_version := "dsr" } ∧
    ({ source := [1], paramdef_version := "dsr" : ParamTableModel }).paramdef_version
      = (if paramBndDcx.dcx then "dsr" else "ptd") :=
  ⟨by decide,
   (paramdef_dialect_selected_once paramBndDcx).1 "p"
     { source := [1], paramdef_version := "dsr" } (by decide)⟩

theorem parse_ok_slot (basename : String) (sb : Nat × String)
    (h : parse_draw_param_basename basename = .ok sb) : sb.1 = 0 ∨ sb.1 = 1 := by
  unfold parse_draw_param_basename at h
  split at h
  · injection h with h
    rw [← h]
    left
    rfl
  · split at h
    · simp at h
    · injection h with h
      rw [← h]
      right
      rfl
  · simp at h

theorem draw_load_slots (pd : String) :
    ∀ (es : List ParamBNDEntry) (acc d : List (String × DrawParamSlots)),
      draw_param_block_load pd es acc = .ok d →
      ∀ e ∈ es, ∃ sb, parse_draw_param_basename e.basename = .ok sb ∧
        (sb.1 = 0 ∨ sb.1 = 1) := by
  intro es
  induction es with
  | nil => intro acc d h x hx; simp at hx
  | cons e rest ih =>
    intro acc d h x hx
    unfold draw_param_block_load at h
    split at h
    · simp at h
    · rename_i slot basename heq
      split at h
      · simp at h
      · rcases List.mem_cons.mp hx with hxe | hxr
        · subst hxe
          exact ⟨(slot, basename), heq, parse_ok_slot _ _ heq⟩
        · exact ih _ d h x hxr

/-- Claim C10: a DrawParam entry whose stripped base filename splits on
underscores into three parts with a middle part other than `1`, or into any
number of parts other than two or three, is rejected with a `ValueError`; on
a successful `DrawParamBlock` construction every entry parsed to slot 0 or
slot 1, so the block only holds tables in those two slots. -/
theorem draw_param_slot_validation :
    (∀ basename : String,
      (((strSplitChar (strDropRight basename 6) '_').length = 3 ∧
          (strSplitChar (strDropRight basename 6) '_')[1]? ≠ some "1") ∨
        ((strSplitChar (strDropRight basename 6) '_').length ≠ 2 ∧
          (strSplitChar (strDropRight basename 6) '_').length ≠ 3)) →
      ∃ msg, parse_draw_param_basename basename = .error (.valueError msg)) ∧
    (∀ bnd d, drawParamBlockInit bnd = .ok d →
      ∀ e ∈ bnd.entries, ∃ sb, parse_draw_param_basename e.basename = .ok sb ∧
        (sb.1 = 0 ∨ sb.1 = 1)) := by
  constructor
  · intro basename h
    unfold parse_draw_param_basename
    rcases hp : strSplitChar (strDropRight basename 6) '_' with
      _ | ⟨p0, _ | ⟨p1, _ | ⟨b, _ | ⟨c, tail⟩⟩⟩⟩
    · rw [hp] at h
      exact ⟨_, rfl⟩
    · rw [hp] at h
      exact ⟨_, rfl⟩
    · rw [hp] at h
      simp at h
    · rw [hp] at h
      have hne : p1 ≠ "1" := by
        rcases h with ⟨-, h2⟩ | ⟨-, h2⟩
        · simpa using h2
        · exact absurd (by simp) h2
      refine ⟨"Only slot 0 and slot 1 can exist in DrawParams.", ?_⟩
      simp [hne]
    · rw [hp] at h
      exact ⟨_, rfl⟩
  · intro bnd d hd
    unfold drawParamBlockInit at hd
    exact draw_load_slots _ bnd.entries [] d hd

theorem draw_param_slot_validation_witness :
    (((strSplitChar (strDropRight "m10_2_LightBank.param" 6) '_').length = 3 ∧
        (strSplitChar (strDropRight "m10_2_LightBank.param" 6) '_')[1]? ≠ some "1") ∨
      ((strSplitChar (strDropRight "m10_2_LightBank.param" 6) '_').length ≠ 2 ∧
        (strSplitChar (strDropRight "m10_2_LightBank.param" 6) '_').length ≠ 3)) ∧
    ∃ msg, parse_draw_param_basename "m10_2_LightBank.param"
      = .error (.valueError msg) :=
  ⟨by decide, draw_param_slot_validation.1 "m10_2_LightBank.param" (by decide)⟩

theorem strAppend_left_cancel {s a b : String} (h : s ++ a = s ++ b) : a = b := by
  have hd := congrArg String.data h
  simp at hd
  exact String.ext hd

theorem append_distinct (s : String) {a b : String} (hab : a ≠ b) :
    s ++ a ≠ s ++ b :=
  fun hc => hab (strAppend_left_cancel hc)

/-- Claim C6 (amended): item-text deletion is a three-category operation:
when the index exists in `{Item}Names` and the three sibling categories are
loaded, `delete_item_text` sets the entries of `{Item}Names`,
`{Item}Summaries` and `{Item}Descriptions` at that index to the empty string
without removing any key; every `(category, index)` pair outside those three
is unchanged. -/
theorem delete_item_text_triple (st : MSGState) (index : Nat)
    (item_fmg item : String) (names summaries descriptions : List (Nat × String))
    (hres : resolve_item_type item_fmg = .ok item)
    (hN : dget st.categories (item ++ "Names") = some names)
    (hidx : (dget names index).isNone = false)
    (hS : dget st.categories (item ++ "Summaries") = some summaries)
    (hD : dget st.categories (item ++ "Descriptions") = some descriptions) :
    (dget (catEntries (delete_item_text st index item_fmg).1 (item ++ "Names"))
        index = some "" ∧
      dget (catEntries (delete_item_text st index item_fmg).1 (item ++ "Summaries"))
        index = some "" ∧
      dget (catEntries (delete_item_text st index item_fmg).1 (item ++ "Descriptions"))
        index = some "") ∧
    ((delete_item_text st index item_fmg).2 = none) ∧
    (∀ c, c ≠ item ++ "Names" → c ≠ item ++ "Summaries" →
      c ≠ item ++ "Descriptions" →
      dget (delete_item_text st index item_fmg).1.categories c
        = dget st.categories c) ∧
    (∀ c i, i ≠ index →
      dget (catEntries (delete_item_text st index item_fmg).1 c) i
        = dget (catEntries st c) i) := by
  have hNS : item ++ "Names" ≠ item ++ "Summaries" := append_distinct item (by decide)
  have hND : item ++ "Names" ≠ item ++ "Descriptions" := append_distinct item (by decide)
  have hSD : item ++ "Summaries" ≠ item ++ "Descriptions" := append_distinct item (by decide)
  have hS1 : dget (dinsert st.categories (item ++ "Names") (dinsert names index ""))
      (item ++ "Summaries") = some summaries := by
    rw [dget_dinsert, if_neg (Ne.symm hNS)]
    exact hS
  have hD2 : dget (dinsert (dinsert st.categories (item ++ "Names")
        (dinsert names index "")) (item ++ "Summaries") (dinsert summaries index ""))
      (item ++ "Descriptions") = some descriptions := by
    rw [dget_dinsert, if_neg (Ne.symm hSD), dget_dinsert, if_neg (Ne.symm hND)]
    exact hD
  have hval : delete_item_text st index item_fmg =
      ({ st with categories := dinsert (dinsert (dinsert st.categories (item ++ "Names") (dinsert names index "")) (item ++ "Summaries") (dinsert summaries index "")) (item ++ "Descriptions") (dinsert descriptions index "") }, none) := by
    unfold delete_item_text
    rw [hres]
    simp only [hN, hidx, Bool.false_eq_true, if_false, hS1, hD2]
  rw [hval]
  refine ⟨⟨?_, ?_, ?_⟩, rfl, ?_, ?_⟩
  · simp [catEntries, dget_dinsert, hND, hNS]
  · simp [catEntries, dget_dinsert, hSD]
  · simp [catEntries, dget_dinsert]
  · intro c hcN hcS hcD
    simp only [dget_dinsert, if_neg hcD, if_neg hcS, if_neg hcN]
  · intro c i hi
    by_cases hcD : c = item ++ "Descriptions"
    · subst hcD
      simp [catEntries, dget_dinsert, hD, hi]
    · by_cases hcS : c = item ++ "Summaries"
      · subst hcS
        simp [catEntries, dget_dinsert, hcD, hS, hi]
      · by_cases hcN : c = item ++ "Names"
        · subst hcN
          simp [catEntries, dget_dinsert, hcD, hcS, hN, hi]
        · simp [catEntries, dget_dinsert, hcD, hcS, hcN]

/-- Claim C6 counterexample: deleting the good-item text at index 1 (category
`GoodNames` in the claim reading) also rewrites the pair
`("GoodSummaries", 1)` from `"s"` to `""`, so the claim that every other
`(category, index)` pair is unchanged is false. -/
theorem delete_item_text_sibling_changed :
    (delete_item_text goodItemState 1 "good").2 = none ∧
    dget (catEntries goodItemState "GoodSummaries") 1 = some "s" ∧
    dget (catEntries (delete_item_text goodItemState 1 "good").1 "GoodSummaries") 1
      = some "" :=
  ⟨by decide, by decide, by decide⟩

theorem delete_item_text_triple_witness :
    resolve_item_type "good" = .ok "Good" ∧
    dget (catEntries (delete_item_text goodItemState 1 "good").1 ("Good" ++ "Names")) 1
      = some "" :=
  ⟨by rfl,
   (delete_item_text_triple goodItemState 1 "good" "Good" [(1, "x")] [(1, "s")]
     [(1, "d")] (by rfl) (by decide) (by decide) (by decide) (by decide)).1.1⟩

theorem dialect_check_at_open_witness :
    msgDirInit [] { dcx_magic := true, entries := [] }
      { dcx_magic := false, entries := [] } = .error .inconsistentDialect :=
  (dialect_check_at_open [] { dcx_magic := true, entries := [] }
    { dcx_magic := false, entries := [] } mismatchedState false true true).1.mpr
    (by decide)
